import Mathlib

set_option maxRecDepth 10000

/-!
Shallow embedding of the two core engines of the ai-diagram-generator
repository:

* `analyzePromptStrength` from `src/app/components/PromptPanel.tsx`
  (the prompt strength analyzer), and
* `buildDiagramPrompt` with its block catalog from
  `src/app/api/generate-diagrams/prompts.ts` (the diagram prompt compiler).

Texts are modelled as `String` / `List Char`.  The JavaScript regular
expressions used by the analyzer are alternations of literal words (two of
them with `\s*` between words), so they are embedded as word-sequence
matchers over the lower-cased character list (all Latin patterns carry the
`/i` flag; the CJK patterns are unaffected by lower-casing).  JavaScript
`String.prototype.match` with a non-global regex returns a single match
(array length 1, since none of these patterns has a capture group), which
is reflected in `countMatches` below.
-/

namespace DiagramGen

/-! ### Generic character/list machinery (JS string primitives) -/

/-- JS whitespace test used by `String.prototype.trim`. -/
def isWs (c : Char) : Bool := c.isWhitespace

/-- Left trim, as on `List Char`. -/
def trimLeftL (l : List Char) : List Char := l.dropWhile isWs

/-- Right trim, as on `List Char`. -/
def trimRightL (l : List Char) : List Char := (l.reverse.dropWhile isWs).reverse

/-- JS `String.prototype.trim`, on `List Char`. -/
def trimL (l : List Char) : List Char := trimRightL (trimLeftL l)

/-- JS `String.prototype.trim`, on `String`. -/
def jsTrim (s : String) : String := String.mk (trimL s.data)

/-- JS `toLowerCase` restricted to the ASCII range (all characters used by
the source's case-insensitive patterns are ASCII). -/
def lowerL (l : List Char) : List Char := l.map Char.toLower

/-- `occursB w l` : does the word `w` occur as a contiguous substring of `l`? -/
def occursB (wd : List Char) : List Char → Bool
  | [] => wd.isPrefixOf []
  | c :: rest => wd.isPrefixOf (c :: rest) || occursB wd rest

/-- Substring test on `String`s. -/
def occursS (wd s : String) : Bool := occursB wd.data s.data

/-! ### Regex embedding

A pattern is an alternation of alternatives; an alternative is a list of
literal words separated by `\s*` in the source regex (a plain literal is a
one-word alternative). -/

/-- One `\s*`-separated alternative of a pattern. -/
abbrev Alt := List (List Char)

/-- A pattern: an alternation of alternatives. -/
abbrev Pat := List Alt

/-- Shorthand: the character list of a literal. -/
def w (s : String) : List Char := s.data

/-- Does the alternative match starting exactly at the head of `l`?
Between consecutive words the regex has `\s*`; since every word starts with
a non-whitespace character, the star must consume exactly the whitespace
run, so matching is deterministic. -/
def seqAt : Alt → List Char → Bool
  | [], _ => true
  | [wd], l => wd.isPrefixOf l
  | wd :: p :: ps, l =>
      wd.isPrefixOf l && seqAt (p :: ps) ((l.drop wd.length).dropWhile isWs)

/-- Does the alternative match anywhere in `l`? -/
def occursSeqB (a : Alt) : List Char → Bool
  | [] => seqAt a []
  | c :: rest => seqAt a (c :: rest) || occursSeqB a rest

/-- Does the pattern match anywhere in `text` (JS `regex.test`-like)? -/
def reTest (p : Pat) (text : List Char) : Bool := p.any (fun a => occursSeqB a text)

/-- `countMatches` from `PromptPanel.tsx`.  Each pattern is matched with
`text.match(p)`; none of the source patterns is global and none has a
capture group, so a matching pattern yields an array of length 1 and a
non-matching one contributes nothing. -/
def countMatches (text : List Char) (patterns : List Pat) : Nat :=
  patterns.foldl (fun c p => if reTest p text then c + 1 else c) 0

/-! ### The analyzer's pattern tables -/

/-- Keyword group 1: diagram types. -/
def kwDiagramTypes : Pat :=
  [[w "massing"], [w "volume"], [w "zoning"], [w "program"], [w "circulation"],
   [w "section"], [w "axonometric"], [w "isometric"], [w "plan"], [w "diagram"],
   [w "hierarchy"]]

/-- Keyword group 2: visual language. -/
def kwVisual : Pat :=
  [[w "line", w "weight"], [w "contrast"], [w "monochrome"],
   [w "black", w "and", w "white"], [w "minimal"], [w "bold"], [w "rgb"],
   [w "grid"], [w "layer"]]

/-- Keyword group 3: relationships. -/
def kwRelations : Pat :=
  [[w "public"], [w "private"], [w "adjacen"], [w "sequence"], [w "node"],
   [w "threshold"], [w "entry"], [w "core"], [w "vertical"], [w "loop"],
   [w "arrow"], [w "label"]]

/-- Keyword group 4: output directives. -/
def kwDirectives : Pat :=
  [[w "show"], [w "annotate"], [w "label"], [w "highlight"], [w "emphasize"],
   [w "clarify"], [w "reduce"], [w "simplify"]]

/-- Keyword group 5: chinese equivalents. -/
def kwCJK : Pat :=
  [[w "体量"], [w "分区"], [w "功能"], [w "动线"], [w "剖面"], [w "轴测"],
   [w "平面"], [w "层级"], [w "关系"], [w "公共"], [w "私密"], [w "入口"],
   [w "核心"], [w "节点"], [w "标注"], [w "箭头"], [w "线稿"], [w "黑白"],
   [w "对比"], [w "网格"], [w "图层"]]

/-- Keyword patterns (`kw` in the source), lower-cased alternatives. -/
def kwPatterns : List Pat :=
  [kwDiagramTypes, kwVisual, kwRelations, kwDirectives, kwCJK]

/-- English vagueness pattern. -/
def vagueEn : Pat :=
  [[w "nice"], [w "cool"], [w "beautiful"], [w "awesome"], [w "good"],
   [w "make it better"], [w "random"]]

/-- CJK vagueness pattern. -/
def vagueZh : Pat :=
  [[w "随便"], [w "好看"], [w "高级感"], [w "酷一点"], [w "优化一下"], [w "更好一点"]]

/-- Vagueness patterns (`vague` in the source). -/
def vaguePatterns : List Pat := [vagueEn, vagueZh]

/-! ### Structure signals -/

/-- The punctuation-separator class `[,:;，。；：]`. -/
def punctChars : List Char := [',', ':', ';', '，', '。', '；', '：']

/-- `/[,:;，。；：]/.test(text)` -/
def hasPunctuation (t : List Char) : Bool := t.any (fun c => punctChars.contains c)

/-- `/\n/.test(text)` -/
def hasLineBreaks (t : List Char) : Bool := t.any (fun c => c = '\n')

/-- The bullet-marker class `[-•*]`. -/
def isBulletChar (c : Char) : Bool := c = '-' || c = '•' || c = '*'

/-- Match `\s*[-•*]\s+` at this position.  The bullet characters are
non-whitespace, so `\s*` must consume exactly the whitespace run. -/
def bulletHere : List Char → Bool
  | [] => false
  | c :: rest =>
      if isWs c then bulletHere rest
      else if isBulletChar c then
        match rest with
        | [] => false
        | d :: _ => isWs d
      else false

/-- Look for `\n` followed by `\s*[-•*]\s+`. -/
def bulletScan : List Char → Bool
  | [] => false
  | c :: rest => (c = '\n' && bulletHere rest) || bulletScan rest

/-- `/(^|\n)\s*[-•*]\s+/.test(text)` -/
def hasBullets (t : List Char) : Bool := bulletHere t || bulletScan t

/-- The structure sub-score. -/
def structureScore (t : List Char) : Nat :=
  (if hasPunctuation t then 10 else 0) + (if hasLineBreaks t then 8 else 0) +
    (if hasBullets t then 10 else 0)

/-! ### Keyword / constraints / vagueness sub-scores -/

/-- `clamp` from the source (`Math.max(a, Math.min(b, n))`), on `Nat`. -/
def clampN (n a b : Nat) : Nat := max a (min b n)

/-- `clamp` from the source, on `Int` (for the final score). -/
def clampI (n a b : Int) : Int := max a (min b n)

/-- `countMatches(text, kw)` on the lower-cased text (the Latin patterns
carry `/i`; the CJK pattern is unaffected by lower-casing). -/
def keywordHits (t : List Char) : Nat := countMatches (lowerL t) kwPatterns

/-- `clamp(keywordHits * 6, 0, 30)` -/
def keywordScore (t : List Char) : Nat := clampN (keywordHits t * 6) 0 30

/-- Count of maximal digit runs (`text.match(/\d+/g).length`); the `Bool`
argument records whether the previous character was a digit. -/
def goRuns : Bool → List Char → Nat
  | _, [] => 0
  | inRun, c :: rest =>
      if c.isDigit then (if inRun then goRuns true rest else 1 + goRuns true rest)
      else goRuns false rest

/-- `(text.match(/\d+/g) || []).length` -/
def numberHits (t : List Char) : Nat := goRuns false t

/-- JS `\w`: ASCII letters, digits, underscore. -/
def isWordChar (c : Char) : Bool := c.isAlphanum || c = '_'

/-- The role-enumeration words of `/\b(public|private|service|staff|guest)\b/gi`. -/
def enumWords : List (List Char) :=
  [w "public", w "private", w "service", w "staff", w "guest"]

/-- Does `wd` match at the head of `l` with a word boundary on its right? -/
def wordHere (wd l : List Char) : Bool :=
  wd.isPrefixOf l &&
    (match l.drop wd.length with
     | [] => true
     | d :: _ => !isWordChar d)

/-- Count the `\b`-delimited occurrences of the enumeration words; the
`Bool` argument says whether a word may start here (beginning of text or
previous character not a word character).  Matches of these five words
cannot overlap (each needs non-word characters on both sides), so counting
every valid position agrees with the global-regex match count. -/
def countEnum : Bool → List Char → Nat
  | _, [] => 0
  | lb, c :: rest =>
      (if lb then enumWords.countP (fun wd => wordHere wd (c :: rest)) else 0) +
        countEnum (!isWordChar c) rest

/-- `(text.match(/\b(public|private|service|staff|guest)\b/gi) || []).length` -/
def enumHits (t : List Char) : Nat := countEnum true (lowerL t)

/-- `(text.match(/[\/|]/g) || []).length` -/
def separatorHits (t : List Char) : Nat := t.countP (fun c => c = '/' || c = '|')

/-- `clamp(numberHits * 4 + enumHits * 2 + separatorHits * 1, 0, 20)` -/
def constraintsScore (t : List Char) : Nat :=
  clampN (numberHits t * 4 + enumHits t * 2 + separatorHits t * 1) 0 20

/-- `countMatches(text, vague)` -/
def vagueHits (t : List Char) : Nat := countMatches (lowerL t) vaguePatterns

/-- `clamp(vagueHits * 8, 0, 20)` -/
def vaguePenalty (t : List Char) : Nat := clampN (vagueHits t * 8) 0 20

/-- The length sub-score step function. -/
def lenScore (len : Nat) : Nat :=
  if len < 40 then 10
  else if len < 80 then 25
  else if len < 120 then 40
  else if len < 260 then 60
  else if len < 380 then 55
  else 45

/-- The un-clamped total (`lenScore + structureScore + keywordScore +
constraintsScore - vaguePenalty`); can be negative, hence `Int`. -/
def rawScore (t : List Char) : Int :=
  (lenScore t.length : Int) + structureScore t + keywordScore t +
    constraintsScore t - vaguePenalty t

/-- `clamp(Math.round(score), 0, 100)`; every summand is an integer, so
`Math.round` is the identity. -/
def scoreOf (t : List Char) : Int := clampI (rawScore t) 0 100

/-! ### The analyzer -/

inductive PromptStrengthLevel where
  | exploratory
  | focused
  | precise
  deriving DecidableEq, Repr

/-- `level` as a function of the final score. -/
def levelOf (score : Int) : PromptStrengthLevel :=
  if 70 ≤ score then .precise
  else if 40 ≤ score then .focused
  else .exploratory

inductive Lang where
  | en
  | zh
  deriving DecidableEq, Repr

structure PromptStrengthResult where
  score : Int
  level : PromptStrengthLevel
  label : String
  reasons : List String
  suggestions : List String
  deriving DecidableEq, Repr

/-- The display label for a level. -/
def labelOf (level : PromptStrengthLevel) (zh : Bool) : String :=
  match level with
  | .precise => if zh then "精确 Precise" else "Precise"
  | .focused => if zh then "聚焦 Focused" else "Focused"
  | .exploratory => if zh then "探索 Exploratory" else "Exploratory"

/-- `analyzePromptStrength` from `PromptPanel.tsx`. -/
def analyzePromptStrength (raw : String) (language : Lang) : PromptStrengthResult :=
  let text := trimL raw.data
  let len := text.length
  if text = [] then
    { score := 0
      level := .exploratory
      label := if language = .zh then "未输入" else "Empty"
      reasons := [if language = .zh then "还没有输入 prompt" else "No prompt yet"]
      suggestions :=
        [if language = .zh then
           "先写：对象 + 图类型 + 你想表达的关系（例如：公共/私密、动线、层级）"
         else
           "Start with: subject + diagram type + relationships (zoning / circulation / hierarchy)."] }
  else
    let score := scoreOf text
    let level := levelOf score
    let zh := language = .zh
    let reasons :=
      (if 80 ≤ len then [if zh then "信息量足够" else "Enough detail"]
       else [if zh then "信息量偏少" else "Too little detail"]) ++
      (if 18 ≤ keywordScore text then
         [if zh then "包含明确的图像语言/建筑术语" else "Clear diagram / architecture terms"]
       else [if zh then "术语较少，表达偏泛" else "Few diagram terms (a bit vague)"]) ++
      (if 10 ≤ constraintsScore text then
         [if zh then "有约束/层级/分类（更可控）" else "Has constraints / categories (more controllable)"]
       else [if zh then "约束少，AI 更容易跑偏" else "Few constraints (model may drift)"]) ++
      (if 0 < vaguePenalty text then
         [if zh then "存在模糊词（会降低可控性）" else "Contains vague words (reduces control)"]
       else [])
    let suggestions :=
      (if score < 40 then
         [if zh then
            "补齐：图类型（massing/circulation/zoning）+ 你要表达的关系（比如 public vs private / loop）"
          else
            "Add: diagram type (massing/circulation/zoning) + relationships (public vs private / loop)."]
       else []) ++
      (if constraintsScore text < 8 then
         [if zh then
            "加 1-2 个硬约束：比如 3 个分区、2 条主路径、标注关键节点、最少文字"
          else
            "Add 1–2 hard constraints: e.g., 3 zones, 2 main paths, label key nodes, minimal text."]
       else []) ++
      (if structureScore text < 10 then
         [if zh then
            "用逗号或换行把信息分组（更稳定）：目标 / 关系 / 风格 / 标注"
          else
            "Group with commas/line breaks: goal / relationships / style / annotations."]
       else [])
    { score := score, level := level, label := labelOf level zh,
      reasons := reasons, suggestions := suggestions }

/-! ### The diagram prompt compiler (`prompts.ts`)

Enum-typed configuration fields are modelled as `Option String` so that
omitted (`none`, JS `undefined`, which triggers the destructuring default)
and unknown values can both be expressed. -/

structure CompilerParams where
  userPrompt : String
  preset : Option String := none
  style : Option String := none
  emphasis : Option String := none
  quality : Option String := none
  intent : Option String := none
  deriving DecidableEq, Repr

/-- JS `Array.prototype.join("\n\n")`. -/
def joinBlocks : List String → String
  | [] => ""
  | [b] => b
  | b :: rest => b ++ "\n\n" ++ joinBlocks rest

def systemRole : String :=
  "You are an architectural diagram generator for spatial design thinking.\nYour output must look like a clean studio / portfolio diagram, not an illustration."

def qualityBlock (quality : String) : String :=
  if quality = "draft" then
    "Mode: DRAFT\nGoal: fast ideation and variation. Keep it simple and readable."
  else
    "Mode: PORTFOLIO\nGoal: portfolio-ready clarity, disciplined composition, consistent graphics."

def renderingCommon : String :=
  "Rendering constraints (MANDATORY):\n- Architectural diagram, NOT a sketch, NOT an illustration, NOT a rendering\n- White background only\n- Flat graphic output (no textures, no material realism)\n- No shadows, no gradients, no 3D shading\n- No people, no furniture, no trees, no realistic context\n- Use rectilinear / geometric block volumes\n- Use a clean axonometric OR orthographic projection (avoid strong perspective distortion)\n- Maintain generous negative space\n- Keep edges crisp and readable"

def lineworkMinimal : String :=
  "Linework style:\n- Thin, consistent black lineweight\n- Clean outlines with uniform stroke\n- If fills exist, keep them very light (or none)\n- Arrows are simple, consistent, and minimal"

def boldColors : String :=
  "Color style:\n- Use only primary colors: red, blue, yellow (plus black outlines)\n- Flat fills, no gradients\n- High contrast but disciplined composition\n- Limit palette (do not introduce extra colors)\n- Keep arrows and outlines consistent"

def portfolioExtras : String :=
  "Portfolio polish:\n- Balanced margins and centered composition\n- Avoid clutter and decorative elements\n- Ensure a strong figure-ground relationship\n- Maintain consistent spacing between blocks"

def renderingConstraints (style quality : String) : String :=
  joinBlocks
    (([renderingCommon,
       if style = "minimal" then lineworkMinimal else boldColors,
       if quality = "portfolio" then portfolioExtras else ""]).filter (fun b => b ≠ ""))

def compositionConstraints (quality : String) : String :=
  if quality = "draft" then
    "Composition:\n- Keep layout simple and readable\n- Avoid too many elements\n- Prioritize clarity over completeness"
  else
    "Composition:\n- Centered layout with clear hierarchy\n- 1 main reading focus + supporting elements\n- Strong alignment and consistent spacing\n- Do not overcrowd the canvas"

def diagramGrammar : String :=
  "Diagram grammar:\n- Use block volumes to represent spaces/programs\n- Use arrows to represent movement only when relevant\n- Use dashed lines sparingly to indicate secondary / optional relationships\n- Use minimal annotation (prefer none). If any marks appear, keep them abstract (no text)\n- Prioritize: hierarchy, adjacency, sequence, and legibility"

def presetBlock (preset : Option String) : String :=
  let s := preset.getD ""
  if s = "massing" then
    "Diagram type: MASSING & VOLUME\n- 2–4 primary volumes (simple blocks)\n- Show hierarchy via size/height (conceptual)\n- Emphasize solid-void relationships"
  else if s = "circulation" then
    "Diagram type: CIRCULATION FLOW\n- Circulation is the primary subject\n- Use arrows to show direction\n- Distinguish primary vs secondary paths clearly\n- Keep volumes minimal and secondary"
  else if s = "zoning" then
    "Diagram type: PROGRAM ZONING\n- Use distinct blocks to represent zones\n- Show adjacency and separation\n- Emphasize public/semi-public/private gradient"
  else if s = "program" then
    "Diagram type: PROGRAM HIERARCHY\n- Show primary vs secondary spaces with size and grouping\n- Emphasize hierarchy and clustering\n- Avoid detailed partitions; stay abstract"
  else if s = "immersive" then
    "Diagram type: SPATIAL EXPERIENCE\n- Show a clear sequence of spaces (journey)\n- Highlight nodes, thresholds, transitions\n- Compression/release can be expressed via volume size and spacing"
  else if s = "process" then
    "Diagram type: DESIGN PROCESS\n- Show 3–5 steps or states\n- Use arrows to indicate transformation\n- Each step must be clearly separated and readable"
  else
    "Diagram type: GENERIC ARCHITECTURAL CONCEPT\n- Focus on spatial relationships and clarity\n- Keep abstraction high"

def emphasisBlock (emphasis : String) : String :=
  if emphasis = "massing" then
    "Emphasis override:\n- MASSING ONLY\n- No arrows\n- No internal subdivision\n- Show solid volumes and their relationship only"
  else if emphasis = "circulation" then
    "Emphasis override:\n- CIRCULATION ONLY\n- Show arrows/paths as the main content\n- Volumes should be minimal outlines or very light blocks"
  else if emphasis = "program" then
    "Emphasis override:\n- PROGRAM ONLY\n- Show program blocks and adjacency clearly\n- Minimize arrows; avoid circulation detail"
  else if emphasis = "experience" then
    "Emphasis override:\n- EXPERIENCE SEQUENCE\n- Focus on transitions and nodes\n- Use arrows sparingly to guide reading order"
  else
    "Emphasis:\n- Balanced: volumes + relationships (and arrows only if relevant)"

def intentBlock (intent : Option String) : String :=
  match intent with
  | none => ""
  | some i => if i = "" then "" else jsTrim ("Specific intent focus:\n- " ++ i)

def userRequestBlock (userPrompt : String) : String :=
  jsTrim ("Design description from user:\n" ++
    (if jsTrim userPrompt = "" then "(no additional input)" else jsTrim userPrompt))

def outputReminder : String :=
  "Output requirements:\n- Single diagram image\n- Clean white background\n- Diagrammatic clarity above all"

/-- `buildDiagramPrompt` from `prompts.ts`: destructuring defaults for
omitted fields, then the fixed ordered block list, emptiness filter,
blank-line join, final trim. -/
def buildDiagramPrompt (p : CompilerParams) : String :=
  let style := p.style.getD "minimal"
  let emphasis := p.emphasis.getD "all"
  let quality := p.quality.getD "portfolio"
  let blocks :=
    [systemRole,
     qualityBlock quality,
     renderingConstraints style quality,
     compositionConstraints quality,
     diagramGrammar,
     presetBlock p.preset,
     emphasisBlock emphasis,
     intentBlock p.intent,
     userRequestBlock p.userPrompt,
     outputReminder]
  jsTrim (joinBlocks (blocks.filter (fun b => b ≠ "")))

/-! ### Additional definitions used by the verification -/

/-- No nonempty proper suffix of `wd` is a prefix of `s`: then an occurrence
of `wd` in `t ++ s` cannot straddle the junction. -/
def crossFree (wd s : List Char) : Bool :=
  (List.range wd.length).all (fun k => decide (k = 0) || !((wd.drop k).isPrefixOf s))

/-- A one-word alternative whose word neither occurs in `s` nor can straddle
a junction with `s` on the right. -/
def altCrossSafe (a : Alt) (s : List Char) : Bool :=
  match a with
  | [wd] => !occursB wd s && crossFree wd s
  | _ => false

/-- Modelled from the spec's words for the keyword sub-score ("each matching
occurrence … contributes a fixed per-hit weight"): the number of positions of
`l` at which some alternative of the pattern matches, i.e. per-occurrence
counting instead of per-pattern presence. -/
def specOccCount (p : Pat) : List Char → Nat
  | [] => if p.any (fun a => seqAt a []) then 1 else 0
  | c :: rest =>
      (if p.any (fun a => seqAt a (c :: rest)) then 1 else 0) + specOccCount p rest

/-- Modelled from the spec's words: total per-occurrence keyword hit count. -/
def specKeywordHits (t : List Char) : Nat :=
  (kwPatterns.map (fun p => specOccCount p (lowerL t))).sum

/-- Number of the five keyword groups that match the text at all. -/
def keywordGroupsMatching (t : List Char) : Nat :=
  kwPatterns.countP (fun p => reTest p (lowerL t))

/-- The block list that survives `buildDiagramPrompt`'s emptiness filter:
only the intent block can be empty. -/
def compiledBlocks (p : CompilerParams) : List String :=
  let style := p.style.getD "minimal"
  let emphasis := p.emphasis.getD "all"
  let quality := p.quality.getD "portfolio"
  [systemRole,
   qualityBlock quality,
   renderingConstraints style quality,
   compositionConstraints quality,
   diagramGrammar,
   presetBlock p.preset,
   emphasisBlock emphasis] ++
  (if intentBlock p.intent = "" then [] else [intentBlock p.intent]) ++
  [userRequestBlock p.userPrompt, outputReminder]

/-! ## Lemmas: substring machinery -/

theorem occursB_of_isPrefixOf {wd l : List Char} (h : wd.isPrefixOf l = true) :
    occursB wd l = true := by
  cases l with
  | nil => simpa [occursB] using h
  | cons c rest => simp [occursB, h]

theorem occursB_append_right {wd s : List Char} (t : List Char)
    (h : occursB wd s = true) : occursB wd (t ++ s) = true := by
  induction t with
  | nil => simpa using h
  | cons c rest ih => simp [occursB, ih]

theorem occursB_append_left {wd t : List Char} (s : List Char)
    (h : occursB wd t = true) : occursB wd (t ++ s) = true := by
  induction t with
  | nil =>
    have : wd = [] := by
      cases wd with
      | nil => rfl
      | cons c w' => simp [occursB, List.isPrefixOf] at h
    subst this
    apply occursB_of_isPrefixOf
    simp [List.isPrefixOf_iff_prefix]
  | cons c rest ih =>
    simp only [occursB, Bool.or_eq_true, List.cons_append] at h ⊢
    rcases h with h | h
    · left
      rw [List.isPrefixOf_iff_prefix] at h ⊢
      exact h.trans (by simp)
    · right; exact ih h

theorem isPrefixOf_append_cases {wd a s : List Char}
    (h : wd.isPrefixOf (a ++ s) = true) :
    wd.isPrefixOf a = true ∨ ∃ w2, wd = a ++ w2 ∧ w2.isPrefixOf s = true := by
  induction a generalizing wd with
  | nil => exact Or.inr ⟨wd, rfl, by simpa using h⟩
  | cons c a' ih =>
    cases wd with
    | nil => left; simp [List.isPrefixOf]
    | cons d w' =>
      simp only [List.cons_append, List.isPrefixOf, Bool.and_eq_true, beq_iff_eq] at h
      obtain ⟨rfl, h2⟩ := h
      rcases ih h2 with h3 | ⟨w2, rfl, h4⟩
      · left; simp [List.isPrefixOf, h3]
      · right; exact ⟨w2, rfl, h4⟩

theorem occursB_append_cases {wd t s : List Char}
    (h : occursB wd (t ++ s) = true) :
    occursB wd t = true ∨ occursB wd s = true ∨
      ∃ w1 w2, wd = w1 ++ w2 ∧ w1 ≠ [] ∧ w2 ≠ [] ∧ w2.isPrefixOf s = true := by
  induction t with
  | nil => right; left; simpa using h
  | cons c t' ih =>
    simp only [List.cons_append, occursB, Bool.or_eq_true] at h
    rcases h with h | h
    · rcases isPrefixOf_append_cases (a := c :: t') h with h1 | ⟨w2, rfl, h2⟩
      · left; exact occursB_of_isPrefixOf h1
      · cases w2 with
        | nil =>
          left
          apply occursB_of_isPrefixOf
          simp [List.isPrefixOf_iff_prefix]
        | cons d w' =>
          right; right
          exact ⟨c :: t', d :: w', by simp, by simp, by simp, h2⟩
    · rcases ih h with h1 | h1 | h1
      · left; simp [occursB, h1]
      · right; left; exact h1
      · right; right; exact h1

theorem occursB_append_eq {wd s : List Char} (t : List Char)
    (h1 : occursB wd s = false) (h2 : crossFree wd s = true) :
    occursB wd (t ++ s) = occursB wd t := by
  by_cases h : occursB wd t = true
  · rw [h, occursB_append_left s h]
  · rw [Bool.not_eq_true] at h
    rw [h]
    by_contra hc
    rw [Bool.not_eq_false] at hc
    rcases occursB_append_cases hc with h3 | h3 | ⟨w1, w2, rfl, hw1, hw2, hpre⟩
    · rw [h] at h3; exact absurd h3 (by decide)
    · rw [h1] at h3; exact absurd h3 (by decide)
    · have hk : w1.length ∈ List.range (w1 ++ w2).length := by
        rw [List.mem_range, List.length_append]
        cases w2 with
        | nil => exact absurd rfl hw2
        | cons d w' => simp only [List.length_cons]; omega
      have := List.all_eq_true.mp h2 _ hk
      simp only [List.drop_left, Bool.or_eq_true, decide_eq_true_eq,
        Bool.not_eq_true'] at this
      rcases this with h4 | h4
      · exact hw1 (List.length_eq_zero.mp h4)
      · rw [hpre] at h4; exact absurd h4 (by decide)

theorem occursB_nil {wd : List Char} (h : wd ≠ []) : occursB wd [] = false := by
  cases wd with
  | nil => exact absurd rfl h
  | cons c w' => rfl

theorem occursSeqB_single (wd : List Char) (l : List Char) :
    occursSeqB [wd] l = occursB wd l := by
  induction l with
  | nil => rfl
  | cons c rest ih => simp only [occursSeqB, occursB, seqAt, ih]

theorem occursSeqB_append_right {a : Alt} {s : List Char} (t : List Char)
    (h : occursSeqB a s = true) : occursSeqB a (t ++ s) = true := by
  induction t with
  | nil => simpa using h
  | cons c rest ih => simp [occursSeqB, ih]

theorem countMatches_eq_countP (text : List Char) (pats : List Pat) :
    countMatches text pats = pats.countP (fun p => reTest p text) := by
  suffices h : ∀ (ps : List Pat) (acc : Nat),
      ps.foldl (fun c p => if reTest p text then c + 1 else c) acc =
        acc + ps.countP (fun p => reTest p text) by
    simpa [countMatches] using h pats 0
  intro ps
  induction ps with
  | nil => simp
  | cons p ps ih =>
    intro acc
    simp only [List.foldl_cons, List.countP_cons, ih]
    by_cases hp : reTest p text = true
    · simp [hp]
      try omega
    · simp [hp]
      try omega

theorem countMatches_pos {text : List Char} {pats : List Pat} {p : Pat}
    (hmem : p ∈ pats) (h : reTest p text = true) : 1 ≤ countMatches text pats := by
  rw [countMatches_eq_countP]
  exact List.countP_pos_iff.mpr ⟨p, hmem, h⟩

theorem reTest_append_eq {p : Pat} {s : List Char} (t : List Char)
    (h : p.all (fun a => altCrossSafe a s) = true) :
    reTest p (t ++ s) = reTest p t := by
  unfold reTest
  induction p with
  | nil => rfl
  | cons a p' ih =>
    have ha : altCrossSafe a s = true := by
      have := List.all_eq_true.mp h a (by simp)
      exact this
    have hrest : p'.all (fun a => altCrossSafe a s) = true := by
      rw [List.all_eq_true] at h ⊢
      exact fun x hx => h x (by simp [hx])
    match a, ha with
    | [wd], ha =>
      simp only [altCrossSafe, Bool.and_eq_true, Bool.not_eq_true'] at ha
      simp only [List.any_cons, occursSeqB_single,
        occursB_append_eq t ha.1 ha.2, ih hrest]

theorem countMatches_append_eq {s : List Char} (t : List Char) (pats : List Pat)
    (h : pats.all (fun p => p.all (fun a => altCrossSafe a s)) = true) :
    countMatches (t ++ s) pats = countMatches t pats := by
  rw [countMatches_eq_countP, countMatches_eq_countP]
  apply List.countP_congr
  intro p hp
  rw [reTest_append_eq t (List.all_eq_true.mp h p hp)]

/-! ## Lemmas: newline-separated joins -/

theorem isPrefixOf_nl_iff {wd X R : List Char}
    (hnl : wd.all (fun c => !(c == '\n')) = true) :
    wd.isPrefixOf (X ++ '\n' :: R) = true ↔ wd.isPrefixOf X = true := by
  constructor
  · intro h
    rcases isPrefixOf_append_cases h with h1 | ⟨w2, rfl, h2⟩
    · exact h1
    · cases w2 with
      | nil => simp [List.isPrefixOf_iff_prefix]
      | cons d w' =>
        exfalso
        simp only [List.isPrefixOf, Bool.and_eq_true, beq_iff_eq] at h2
        have : d ∈ X ++ d :: w' := by simp
        have := List.all_eq_true.mp hnl d this
        simp [h2.1] at this
  · intro h
    rw [List.isPrefixOf_iff_prefix] at h ⊢
    exact h.trans (by simp)

theorem occursB_nl_split {wd : List Char} (X Y : List Char) (hw : wd ≠ [])
    (hnl : wd.all (fun c => !(c == '\n')) = true) :
    occursB wd (X ++ '\n' :: Y) = true ↔
      (occursB wd X = true ∨ occursB wd Y = true) := by
  induction X with
  | nil =>
    obtain ⟨c, w', rfl⟩ : ∃ c w', wd = c :: w' := by
      cases wd with
      | nil => exact absurd rfl hw
      | cons c w' => exact ⟨c, w', rfl⟩
    have hc : (c == '\n') = false := by
      have := List.all_eq_true.mp hnl c (by simp)
      simpa using this
    simp only [List.nil_append, occursB, List.isPrefixOf, hc, Bool.false_and,
      Bool.false_or, occursB_nil (by simp : (c :: w') ≠ [])]
    simp
  | cons x X' ih =>
    have hx : wd.isPrefixOf (x :: (X' ++ '\n' :: Y)) = true ↔
        wd.isPrefixOf (x :: X') = true := by
      have := isPrefixOf_nl_iff (X := x :: X') (R := Y) hnl
      simpa using this
    simp only [List.cons_append, occursB, Bool.or_eq_true, ih, hx]
    tauto

theorem joinBlocks_cons {b : String} {rest : List String} (h : rest ≠ []) :
    joinBlocks (b :: rest) = b ++ "\n\n" ++ joinBlocks rest := by
  cases rest with
  | nil => exact absurd rfl h
  | cons x t => rfl

theorem occursS_joinBlocks_iff {needle : String} (hw : needle.data ≠ [])
    (hnl : needle.data.all (fun c => !(c == '\n')) = true) :
    ∀ bs : List String, bs ≠ [] →
      (occursS needle (joinBlocks bs) = true ↔ ∃ b ∈ bs, occursS needle b = true) := by
  intro bs
  induction bs with
  | nil => intro h; exact absurd rfl h
  | cons b rest ih =>
    intro _
    cases rest with
    | nil => simp [joinBlocks]
    | cons x t =>
      rw [joinBlocks_cons (by simp)]
      unfold occursS
      have hdata : (b ++ "\n\n" ++ joinBlocks (x :: t)).data =
          b.data ++ '\n' :: '\n' :: (joinBlocks (x :: t)).data := by
        simp only [String.data_append, List.append_assoc]
        rfl
      rw [hdata, occursB_nl_split b.data _ hw hnl]
      have h2 : occursB needle.data ('\n' :: (joinBlocks (x :: t)).data) = true ↔
          occursB needle.data (joinBlocks (x :: t)).data = true := by
        have h3 := occursB_nl_split []
          (joinBlocks (x :: t)).data hw hnl
        simp only [List.nil_append] at h3
        rw [h3, occursB_nil hw]
        simp
      rw [h2]
      have ih' := ih (by simp)
      simp only [occursS] at ih'
      rw [ih']
      simp only [occursS, List.mem_cons]
      constructor
      · rintro (h | ⟨c, hc, hocc⟩)
        · exact ⟨b, Or.inl rfl, h⟩
        · exact ⟨c, Or.inr hc, hocc⟩
      · rintro ⟨c, hc | hc, hocc⟩
        · subst hc; exact Or.inl hocc
        · exact Or.inr ⟨c, hc, hocc⟩

/-! ## Lemmas: trimming -/

theorem trimLeftL_of_head {l : List Char} {c : Char} (h : l.head? = some c)
    (hc : isWs c = false) : trimLeftL l = l := by
  cases l with
  | nil => simp at h
  | cons x t =>
    obtain rfl : x = c := by simpa using h
    simp [trimLeftL, List.dropWhile_cons, hc]

theorem trimRightL_of_getLast {l : List Char} {d : Char} (h : l.getLast? = some d)
    (hd : isWs d = false) : trimRightL l = l := by
  have hrev : l.reverse.head? = some d := by rw [List.head?_reverse]; exact h
  cases hr : l.reverse with
  | nil => rw [hr] at hrev; simp at hrev
  | cons x t =>
    rw [hr] at hrev
    have hx : x = d := by simpa using hrev
    unfold trimRightL
    rw [hr, List.dropWhile_cons, if_neg (by simp [hx, hd]), ← hr,
      List.reverse_reverse]

theorem trimL_of_ends {l : List Char} {c d : Char} (h1 : l.head? = some c)
    (hc : isWs c = false) (h2 : l.getLast? = some d) (hd : isWs d = false) :
    trimL l = l := by
  unfold trimL
  rw [trimLeftL_of_head h1 hc, trimRightL_of_getLast h2 hd]

theorem trimL_self_parts {l : List Char} (h : trimL l = l) :
    l.dropWhile isWs = l ∧ l.reverse.dropWhile isWs = l.reverse := by
  have hsuf : l.dropWhile isWs <:+ l := List.dropWhile_suffix _
  have hlen1 : (trimL l).length ≤ (l.dropWhile isWs).length := by
    unfold trimL trimRightL trimLeftL
    calc ((l.dropWhile isWs).reverse.dropWhile isWs).reverse.length
        = ((l.dropWhile isWs).reverse.dropWhile isWs).length := by
          rw [List.length_reverse]
      _ ≤ (l.dropWhile isWs).reverse.length :=
          ((l.dropWhile isWs).reverse.dropWhile_suffix isWs).length_le
      _ = (l.dropWhile isWs).length := by rw [List.length_reverse]
  have hlen2 : (l.dropWhile isWs).length ≤ l.length := hsuf.length_le
  rw [h] at hlen1
  have hleft : l.dropWhile isWs = l :=
    hsuf.eq_of_length (le_antisymm hlen2 hlen1)
  refine ⟨hleft, ?_⟩
  have h2 : trimRightL l = l := by
    have := h
    unfold trimL at this
    rwa [show trimLeftL l = l from hleft] at this
  unfold trimRightL at h2
  have := congrArg List.reverse h2
  rwa [List.reverse_reverse] at this

theorem trimL_append_right {t s : List Char} (ht : trimL t = t) (htne : t ≠ [])
    (hs : s.reverse.dropWhile isWs = s.reverse) : trimL (t ++ s) = t ++ s := by
  obtain ⟨hL, hR⟩ := trimL_self_parts ht
  unfold trimL trimLeftL trimRightL
  rw [List.dropWhile_append, hL]
  have : t.isEmpty = false := by
    cases t with
    | nil => exact absurd rfl htne
    | cons x r => rfl
  rw [if_neg (by simp [this])]
  rw [List.reverse_append, List.dropWhile_append, hs]
  by_cases hse : s = []
  · subst hse
    simp only [List.reverse_nil, List.dropWhile_nil, List.isEmpty_nil, if_true, hR]
    simp
  · rw [if_neg (by simp [hse])]
    rw [← List.reverse_append, List.reverse_reverse]

theorem trimL_ne_nil_of_head {l : List Char} {c : Char} (h : l.head? = some c)
    (hc : isWs c = false) : trimL l ≠ [] := by
  intro hcon
  unfold trimL trimRightL at hcon
  have h1 : (trimLeftL l).reverse.dropWhile isWs = [] := by
    have := congrArg List.reverse hcon
    simpa using this
  rw [List.dropWhile_eq_nil_iff] at h1
  rw [trimLeftL_of_head h hc] at h1
  cases l with
  | nil => simp at h
  | cons x t =>
    have hx : x = c := by simpa using h
    have h2 := h1 x (by simp)
    rw [hx, hc] at h2
    exact absurd h2 (by decide)

theorem jsTrim_ne_empty {s : String} {c : Char} (h : s.data.head? = some c)
    (hc : isWs c = false) : jsTrim s ≠ "" := by
  intro hcon
  have : (jsTrim s).data = [] := by rw [hcon]
  exact trimL_ne_nil_of_head h hc this

theorem dropWhile_cons_not {p : Char → Bool} {L : List Char} {d : Char}
    {t : List Char} (h : L.dropWhile p = d :: t) : p d = false := by
  have h2 := List.head?_dropWhile_not p L
  rw [h] at h2
  simpa using h2

theorem trimL_getLast_not_ws {l : List Char} (h : trimL l ≠ []) :
    ∃ d, (trimL l).getLast? = some d ∧ isWs d = false := by
  unfold trimL trimRightL at h ⊢
  cases hzc : (trimLeftL l).reverse.dropWhile isWs with
  | nil => rw [hzc] at h; simp at h
  | cons d t =>
    refine ⟨d, ?_, dropWhile_cons_not hzc⟩
    rw [List.getLast?_eq_head?_reverse, List.reverse_reverse]
    rfl

/-! ## Lemmas: structure-signal and count monotonicity -/

theorem indicator_mono {b b' : Bool} (n : Nat) (h : b = true → b' = true) :
    (if b then n else 0) ≤ (if b' then n else 0) := by
  cases b with
  | false => simp
  | true => simp [h rfl]

theorem bulletHere_append {t : List Char} (s : List Char)
    (h : bulletHere t = true) : bulletHere (t ++ s) = true := by
  induction t with
  | nil => simp [bulletHere] at h
  | cons c rest ih =>
    simp only [List.cons_append, bulletHere] at h ⊢
    by_cases hws : isWs c = true
    · rw [if_pos hws] at h ⊢
      exact ih h
    · rw [if_neg hws] at h ⊢
      by_cases hb : isBulletChar c = true
      · rw [if_pos hb] at h ⊢
        cases rest with
        | nil => simp at h
        | cons d r' => simpa using h
      · rw [if_neg hb] at h
        exact absurd h (by simp)

theorem bulletScan_append {t : List Char} (s : List Char)
    (h : bulletScan t = true) : bulletScan (t ++ s) = true := by
  induction t with
  | nil => simp [bulletScan] at h
  | cons c rest ih =>
    simp only [List.cons_append, bulletScan, Bool.or_eq_true,
      Bool.and_eq_true] at h ⊢
    rcases h with ⟨h1, h2⟩ | h
    · exact Or.inl ⟨h1, bulletHere_append s h2⟩
    · exact Or.inr (ih h)

theorem hasBullets_append {t : List Char} (s : List Char)
    (h : hasBullets t = true) : hasBullets (t ++ s) = true := by
  unfold hasBullets at h ⊢
  rcases Bool.or_eq_true_iff.mp h with h | h
  · exact Bool.or_eq_true_iff.mpr (Or.inl (bulletHere_append s h))
  · exact Bool.or_eq_true_iff.mpr (Or.inr (bulletScan_append s h))

theorem hasPunctuation_append {t : List Char} (s : List Char)
    (h : hasPunctuation t = true) : hasPunctuation (t ++ s) = true := by
  unfold hasPunctuation at h ⊢
  rw [List.any_append, h]
  rfl

theorem hasLineBreaks_append {t : List Char} (s : List Char)
    (h : hasLineBreaks t = true) : hasLineBreaks (t ++ s) = true := by
  unfold hasLineBreaks at h ⊢
  rw [List.any_append, h]
  rfl

theorem structureScore_mono (t s : List Char) :
    structureScore t ≤ structureScore (t ++ s) := by
  unfold structureScore
  have h1 := indicator_mono 10 (hasPunctuation_append (t := t) s)
  have h2 := indicator_mono 8 (hasLineBreaks_append (t := t) s)
  have h3 := indicator_mono 10 (hasBullets_append (t := t) s)
  omega

theorem structureScore_le (t : List Char) : structureScore t ≤ 28 := by
  unfold structureScore
  split <;> split <;> split <;> omega

theorem goRuns_append {s : List Char} (hs : goRuns true s = goRuns false s) :
    ∀ (t : List Char) (b : Bool), goRuns b (t ++ s) = goRuns b t + goRuns false s := by
  intro t
  induction t with
  | nil =>
    intro b
    cases b with
    | false => simp [goRuns]
    | true => simp [goRuns, hs]
  | cons c t' ih =>
    intro b
    simp only [List.cons_append, goRuns, List.append_eq]
    by_cases hd : c.isDigit = true
    · rw [if_pos hd, if_pos hd]
      cases b with
      | false => simp only [if_false, Bool.false_eq_true, ite_false, ih true]; omega
      | true => simp only [ite_true, ih true]
    · rw [if_neg hd, if_neg hd, ih false]

theorem numberHits_append {t s : List Char} (hs : goRuns true s = goRuns false s) :
    numberHits (t ++ s) = numberHits t + numberHits s := by
  unfold numberHits
  exact goRuns_append hs t false

theorem wordHere_append {wd l s : List Char}
    (hs : s = [] ∨ isWordChar (s.headD ' ') = false)
    (h : wordHere wd l = true) : wordHere wd (l ++ s) = true := by
  unfold wordHere at h ⊢
  rw [Bool.and_eq_true] at h ⊢
  obtain ⟨h1, h2⟩ := h
  have hlen : wd.length ≤ l.length := by
    rw [List.isPrefixOf_iff_prefix] at h1
    exact h1.length_le
  refine ⟨?_, ?_⟩
  · rw [List.isPrefixOf_iff_prefix] at h1 ⊢
    exact h1.trans (by simp)
  · rw [List.drop_append_of_le_length hlen]
    cases hdrop : l.drop wd.length with
    | nil =>
      rw [hdrop] at h2
      simp only [List.nil_append]
      rcases hs with hs | hs
      · subst hs; simp
      · cases s with
        | nil => simp
        | cons d r => simpa using hs
    | cons e r =>
      rw [hdrop] at h2
      simpa using h2

theorem countEnum_append_le {s : List Char}
    (hs : s = [] ∨ isWordChar (s.headD ' ') = false) :
    ∀ (t : List Char) (lb : Bool), countEnum lb t ≤ countEnum lb (t ++ s) := by
  intro t
  induction t with
  | nil => intro lb; simp [countEnum]
  | cons c rest ih =>
    intro lb
    simp only [List.cons_append, countEnum, List.append_eq]
    have hcount : enumWords.countP (fun wd => wordHere wd (c :: rest)) ≤
        enumWords.countP (fun wd => wordHere wd (c :: (rest ++ s))) := by
      apply List.countP_mono_left
      intro wd _ hw
      have := wordHere_append (l := c :: rest) hs hw
      simpa using this
    have hrec := ih (!isWordChar c)
    cases lb with
    | false => simpa using hrec
    | true => simp only [if_true]; omega

theorem enumHits_append_le {t s : List Char}
    (hs : lowerL s = [] ∨ isWordChar ((lowerL s).headD ' ') = false) :
    enumHits t ≤ enumHits (t ++ s) := by
  unfold enumHits
  unfold lowerL
  rw [List.map_append]
  exact countEnum_append_le hs (lowerL t) true

theorem separatorHits_append_le (t s : List Char) :
    separatorHits t ≤ separatorHits (t ++ s) := by
  unfold separatorHits
  rw [List.countP_append]
  omega

/-! ## Lemmas: clamps and score bounds -/

theorem clampN_zero_eq (n b : Nat) : clampN n 0 b = min b n := by
  unfold clampN
  omega

theorem clampN_le_bound (n b : Nat) : clampN n 0 b ≤ b := by
  rw [clampN_zero_eq]
  omega

theorem clampN_mono {n m : Nat} (b : Nat) (h : n ≤ m) :
    clampN n 0 b ≤ clampN m 0 b := by
  rw [clampN_zero_eq, clampN_zero_eq]
  omega

theorem clampI_cases (x : Int) :
    (x < 0 ∧ clampI x 0 100 = 0) ∨ (0 ≤ x ∧ x ≤ 100 ∧ clampI x 0 100 = x) ∨
      (100 < x ∧ clampI x 0 100 = 100) := by
  unfold clampI
  rcases lt_trichotomy x 0 with h | h | h
  · left
    refine ⟨h, ?_⟩
    rw [min_eq_right (by omega), max_eq_left (by omega)]
  · right; left
    subst h
    norm_num
  · by_cases h2 : x ≤ 100
    · right; left
      refine ⟨le_of_lt h, h2, ?_⟩
      rw [min_eq_right h2, max_eq_right (le_of_lt h)]
    · right; right
      refine ⟨by omega, ?_⟩
      rw [min_eq_left (by omega), max_eq_right (by omega)]

theorem lenScore_bounds (n : Nat) : 10 ≤ lenScore n ∧ lenScore n ≤ 60 := by
  unfold lenScore
  split <;> try omega
  split <;> try omega
  split <;> try omega
  split <;> try omega
  split <;> omega

theorem keywordGroupsMatching_le (t : List Char) : keywordGroupsMatching t ≤ 5 := by
  unfold keywordGroupsMatching
  calc kwPatterns.countP (fun p => reTest p (lowerL t)) ≤ kwPatterns.length :=
        List.countP_le_length _
    _ = 5 := rfl

theorem keywordScore_eq_six_mul (t : List Char) :
    keywordScore t = 6 * keywordGroupsMatching t := by
  unfold keywordScore keywordHits keywordGroupsMatching
  rw [countMatches_eq_countP, clampN_zero_eq]
  have h : kwPatterns.countP (fun p => reTest p (lowerL t)) ≤ 5 := by
    calc kwPatterns.countP (fun p => reTest p (lowerL t)) ≤ kwPatterns.length :=
          List.countP_le_length _
      _ = 5 := rfl
  omega

/-! ## Analyzer: claim theorems -/

theorem analyze_score_nonempty {raw : String} (lang : Lang)
    (h : trimL raw.data ≠ []) :
    (analyzePromptStrength raw lang).score = scoreOf (trimL raw.data) := by
  simp [analyzePromptStrength, h]

theorem analyze_level_nonempty {raw : String} (lang : Lang)
    (h : trimL raw.data ≠ []) :
    (analyzePromptStrength raw lang).level = levelOf (scoreOf (trimL raw.data)) := by
  simp [analyzePromptStrength, h]

/-- C1: for every input text and language, `analyzePromptStrength` returns a
score with 0 ≤ score ≤ 100, and the returned level is exactly the bucket of
that score: ≥ 70 precise, ≥ 40 focused, otherwise exploratory. -/
theorem C1_score_bounds_level_bucket (raw : String) (lang : Lang) :
    0 ≤ (analyzePromptStrength raw lang).score ∧
    (analyzePromptStrength raw lang).score ≤ 100 ∧
    (analyzePromptStrength raw lang).level =
      (if 70 ≤ (analyzePromptStrength raw lang).score then PromptStrengthLevel.precise
       else if 40 ≤ (analyzePromptStrength raw lang).score then PromptStrengthLevel.focused
       else PromptStrengthLevel.exploratory) := by
  by_cases h : trimL raw.data = []
  · refine ⟨?_, ?_, ?_⟩ <;> simp [analyzePromptStrength, h]
  · rw [analyze_score_nonempty lang h, analyze_level_nonempty lang h]
    unfold scoreOf levelOf
    rcases clampI_cases (rawScore (trimL raw.data)) with ⟨h1, h2⟩ | ⟨h1, h2, h3⟩ | ⟨h1, h2⟩
    · rw [h2]
      refine ⟨le_refl 0, by omega, ?_⟩
      rw [if_neg (by omega), if_neg (by omega)]
    · rw [h3]
      exact ⟨h1, h2, rfl⟩
    · rw [h2]
      refine ⟨by omega, le_refl 100, ?_⟩
      rw [if_pos (by omega)]

/-- C2 counterexample: in the text "diagram diagram" the diagram-type pattern
matches twice, but the keyword sub-score is 6 (one presence hit), not the 12
the per-occurrence rule of the claim would give: JS `String.match` without
the global flag reports only the first match. -/
theorem C2_counterexample :
    keywordScore (w "diagram diagram") = 6 ∧
    clampN (specKeywordHits (w "diagram diagram") * 6) 0 30 = 12 ∧
    (6 : Nat) ≠ 12 := by decide

/-- C2 (amended): the keyword sub-score counts each of the five pattern
groups at most once — 6 points per group that matches anywhere in the text,
never more for repeated occurrences — and the clamp to [0,30] is vacuous
because at most five groups can match. -/
theorem C2_amended_keyword_presence (t : List Char) :
    keywordScore t = 6 * keywordGroupsMatching t ∧
    keywordGroupsMatching t ≤ 5 ∧ keywordScore t ≤ 30 := by
  refine ⟨keywordScore_eq_six_mul t, keywordGroupsMatching_le t, ?_⟩
  rw [keywordScore_eq_six_mul t]
  have := keywordGroupsMatching_le t
  omega

/-- C3 counterexample: for the non-vague text "hello" the analyzer emits
exactly 3 reasons, contradicting the claimed lower bound of 4. -/
theorem C3_counterexample :
    (analyzePromptStrength "hello" Lang.en).reasons.length = 3 ∧ 3 < 4 := by
  decide

/-- C3 (amended): the reasons list is never empty — it has exactly one entry
for blank input, and for non-blank input exactly 3 entries, or 4 when the
vagueness penalty is nonzero. -/
theorem C3_amended_reasons_count (raw : String) (lang : Lang) :
    (analyzePromptStrength raw lang).reasons ≠ [] ∧
    (trimL raw.data ≠ [] →
      (analyzePromptStrength raw lang).reasons.length =
        (if 0 < vaguePenalty (trimL raw.data) then 4 else 3)) := by
  by_cases h : trimL raw.data = []
  · refine ⟨?_, fun hc => absurd h hc⟩
    simp [analyzePromptStrength, h]
  · constructor
    · simp only [analyzePromptStrength, h, if_neg, if_false]
      simp only [ne_eq, List.append_eq_nil, not_and]
      intro h1
      split at h1 <;> simp_all
    · intro _
      simp only [analyzePromptStrength, h, if_false]
      simp only [List.length_append, apply_ite List.length, List.length_singleton,
        List.length_nil, ite_self]
      split <;> omega

/-- C4: for every empty or whitespace-only input and either language, the
analyzer returns the fixed blank-input verdict: score 0, level exploratory,
exactly one reason and one suggestion, in the requested language. -/
theorem C4_blank_input (raw : String) (lang : Lang) (h : trimL raw.data = []) :
    analyzePromptStrength raw lang =
      { score := 0
        level := .exploratory
        label := if lang = .zh then "未输入" else "Empty"
        reasons := [if lang = .zh then "还没有输入 prompt" else "No prompt yet"]
        suggestions :=
          [if lang = .zh then
             "先写：对象 + 图类型 + 你想表达的关系（例如：公共/私密、动线、层级）"
           else
             "Start with: subject + diagram type + relationships (zoning / circulation / hierarchy)."] } := by
  simp [analyzePromptStrength, h]

/-- C4 witness at the whitespace-only input "  " in Chinese. -/
theorem C4_witness :
    trimL ("  " : String).data = [] ∧
    analyzePromptStrength "  " Lang.zh =
      { score := 0
        level := .exploratory
        label := "未输入"
        reasons := ["还没有输入 prompt"]
        suggestions := ["先写：对象 + 图类型 + 你想表达的关系（例如：公共/私密、动线、层级）"] } := by
  refine ⟨by decide, ?_⟩
  have h := C4_blank_input "  " Lang.zh (by decide)
  simpa using h

/-- C3 witness at the non-blank input "hello". -/
theorem C3_witness :
    (analyzePromptStrength "hello" Lang.en).reasons.length =
      (if 0 < vaguePenalty (trimL ("hello" : String).data) then 4 else 3) :=
  (C3_amended_reasons_count "hello" Lang.en).2 (by decide)

/-! ## C8: appending a diagram-type keyword to a keyword-free text -/

theorem keywordHits_append_circulation (td : List Char) :
    1 ≤ keywordHits (td ++ w " circulation diagram") := by
  unfold keywordHits
  have hocc : occursSeqB [w "diagram"] (lowerL (td ++ w " circulation diagram")) = true := by
    unfold lowerL
    rw [List.map_append]
    exact occursSeqB_append_right _ (by decide)
  have hre : reTest kwDiagramTypes (lowerL (td ++ w " circulation diagram")) = true := by
    unfold reTest
    rw [List.any_eq_true]
    exact ⟨[w "diagram"], by decide, hocc⟩
  exact countMatches_pos (by decide) hre

theorem vaguePenalty_append_circulation (td : List Char) :
    vaguePenalty (td ++ w " circulation diagram") = vaguePenalty td := by
  unfold vaguePenalty vagueHits lowerL
  rw [List.map_append]
  rw [countMatches_append_eq _ _ (by decide)]

theorem constraintsScore_append_circulation (td : List Char) :
    constraintsScore td ≤ constraintsScore (td ++ w " circulation diagram") := by
  unfold constraintsScore
  apply clampN_mono
  have h1 : numberHits (td ++ w " circulation diagram") =
      numberHits td + numberHits (w " circulation diagram") :=
    numberHits_append (by decide)
  have h2 : numberHits (w " circulation diagram") = 0 := by decide
  have h3 : enumHits td ≤ enumHits (td ++ w " circulation diagram") :=
    enumHits_append_le (Or.inr (by decide))
  have h4 := separatorHits_append_le td (w " circulation diagram")
  omega

theorem scoreOf_append_circulation (td : List Char) (hlen : td.length = 100)
    (hkw : keywordHits td = 0) :
    scoreOf td + 6 ≤ scoreOf (td ++ w " circulation diagram") := by
  have hlen2 : (td ++ w " circulation diagram").length = 120 := by
    rw [List.length_append, hlen]
    decide
  have hK0 : keywordScore td = 0 := by
    unfold keywordScore
    rw [hkw]
    decide
  have hK' : 6 ≤ keywordScore (td ++ w " circulation diagram") := by
    unfold keywordScore
    rw [clampN_zero_eq]
    have := keywordHits_append_circulation td
    omega
  have hK'le : keywordScore (td ++ w " circulation diagram") ≤ 30 :=
    clampN_le_bound _ _
  have hS := structureScore_mono td (w " circulation diagram")
  have hSle := structureScore_le td
  have hC := constraintsScore_append_circulation td
  have hCle : constraintsScore td ≤ 20 := clampN_le_bound _ _
  have hP := vaguePenalty_append_circulation td
  have hPle : vaguePenalty td ≤ 20 := clampN_le_bound _ _
  have hr1 : rawScore td =
      (lenScore 100 : Int) + structureScore td + keywordScore td +
        constraintsScore td - vaguePenalty td := by
    unfold rawScore
    rw [hlen]
  have hr2 : rawScore (td ++ w " circulation diagram") =
      (lenScore 120 : Int) + structureScore (td ++ w " circulation diagram") +
        keywordScore (td ++ w " circulation diagram") +
        constraintsScore (td ++ w " circulation diagram") -
        vaguePenalty (td ++ w " circulation diagram") := by
    unfold rawScore
    rw [hlen2]
  have hl40 : lenScore 100 = 40 := by decide
  have hl60 : lenScore 120 = 60 := by decide
  unfold scoreOf
  rcases clampI_cases (rawScore td) with ⟨h1, h2⟩ | ⟨h1, h2, h3⟩ | ⟨h1, h2⟩ <;>
    rcases clampI_cases (rawScore (td ++ w " circulation diagram")) with
      ⟨g1, g2⟩ | ⟨g1, g2, g3⟩ | ⟨g1, g2⟩ <;>
    rw [hr1, hr2] at * <;> omega

/-- C8: appending " circulation diagram" to a 100-character keyword-free
(trimmed) text strictly increases the score, by at least the minimum keyword
weight of 6. -/
theorem C8_keyword_append_increases (t : String) (lang : Lang)
    (h1 : trimL t.data = t.data) (h2 : t.length = 100)
    (h3 : keywordHits t.data = 0) :
    (analyzePromptStrength t lang).score + 6 ≤
      (analyzePromptStrength (t ++ " circulation diagram") lang).score := by
  have h2' : t.data.length = 100 := h2
  have htne : t.data ≠ [] := by
    intro hc
    rw [hc] at h2'
    simp at h2'
  have hdata : (t ++ " circulation diagram").data =
      t.data ++ w " circulation diagram" := by
    rw [String.data_append]
    rfl
  have htrim2 : trimL (t.data ++ w " circulation diagram") =
      t.data ++ w " circulation diagram" :=
    trimL_append_right h1 htne (by decide)
  have hne2 : trimL (t ++ " circulation diagram").data ≠ [] := by
    rw [hdata, htrim2]
    simp [htne]
  have hA : (analyzePromptStrength t lang).score = scoreOf t.data := by
    rw [analyze_score_nonempty lang (by rw [h1]; exact htne), h1]
  have hB : (analyzePromptStrength (t ++ " circulation diagram") lang).score =
      scoreOf (t.data ++ w " circulation diagram") := by
    rw [analyze_score_nonempty lang hne2, hdata, htrim2]
  rw [hA, hB]
  exact scoreOf_append_circulation t.data h2' h3

/-- C8 witness: the 100-character keyword-free text of 100 letters q. -/
theorem C8_witness :
    trimL (String.mk (List.replicate 100 'q')).data =
      (String.mk (List.replicate 100 'q')).data ∧
    (String.mk (List.replicate 100 'q')).length = 100 ∧
    keywordHits (String.mk (List.replicate 100 'q')).data = 0 ∧
    (analyzePromptStrength (String.mk (List.replicate 100 'q')) Lang.en).score + 6 ≤
      (analyzePromptStrength
        (String.mk (List.replicate 100 'q') ++ " circulation diagram") Lang.en).score :=
  ⟨by decide, by decide, by decide,
    C8_keyword_append_increases (String.mk (List.replicate 100 'q')) Lang.en
      (by decide) (by decide) (by decide)⟩

/-! ## C9: replacing a specific phrase by "make it nice" -/

/-- C9 counterexample: in "nice plan, axonometric" the specific phrase
"axonometric" is replaced by "make it nice" with everything else identical,
yet the score stays at 18 ≠ 0: the vague word "nice" was already present, so
the penalty does not change, and no sub-score moves. -/
theorem C9_counterexample :
    ("nice plan, axonometric" : String) = "nice plan, " ++ "axonometric" ∧
    ("nice plan, make it nice" : String) = "nice plan, " ++ "make it nice" ∧
    (analyzePromptStrength "nice plan, make it nice" Lang.en).score =
      (analyzePromptStrength "nice plan, axonometric" Lang.en).score ∧
    (analyzePromptStrength "nice plan, axonometric" Lang.en).score ≠ 0 := by
  refine ⟨rfl, rfl, by decide, by decide⟩

/-- C9 (amended): replacing a phrase by "make it nice" always triggers the
vagueness pattern, and when the original text had no vague-word match, the
replacement does not increase any sub-score, and the pre-clamp score was at
most 100, the final score strictly decreases. -/
theorem C9_amended_vague_replacement (a p b : String) (lang : Lang)
    (h1 : trimL (a ++ p ++ b).data = (a ++ p ++ b).data)
    (h2 : trimL (a ++ "make it nice" ++ b).data = (a ++ "make it nice" ++ b).data)
    (hne : (a ++ p ++ b).data ≠ [])
    (hlen : lenScore (a ++ "make it nice" ++ b).data.length ≤
      lenScore (a ++ p ++ b).data.length)
    (hst : structureScore (a ++ "make it nice" ++ b).data ≤
      structureScore (a ++ p ++ b).data)
    (hkw : keywordScore (a ++ "make it nice" ++ b).data ≤
      keywordScore (a ++ p ++ b).data)
    (hcs : constraintsScore (a ++ "make it nice" ++ b).data ≤
      constraintsScore (a ++ p ++ b).data)
    (hv : vagueHits (a ++ p ++ b).data = 0)
    (hraw : rawScore (a ++ p ++ b).data ≤ 100) :
    1 ≤ vagueHits (a ++ "make it nice" ++ b).data ∧
    (analyzePromptStrength (a ++ "make it nice" ++ b) lang).score <
      (analyzePromptStrength (a ++ p ++ b) lang).score := by
  have hvague : 1 ≤ vagueHits (a ++ "make it nice" ++ b).data := by
    unfold vagueHits lowerL
    have hdata : (a ++ "make it nice" ++ b).data =
        a.data ++ (w "make it nice" ++ b.data) := by
      rw [String.data_append, String.data_append, List.append_assoc]
      rfl
    rw [hdata, List.map_append, List.map_append]
    have hocc : occursSeqB [w "nice"]
        (List.map Char.toLower a.data ++
          (List.map Char.toLower (w "make it nice") ++
            List.map Char.toLower b.data)) = true := by
      apply occursSeqB_append_right
      have : occursSeqB [w "nice"] (List.map Char.toLower (w "make it nice")) = true := by
        decide
      rw [occursSeqB_single] at this ⊢
      exact occursB_append_left _ this
    have hre : reTest vagueEn
        (List.map Char.toLower a.data ++
          (List.map Char.toLower (w "make it nice") ++
            List.map Char.toLower b.data)) = true := by
      unfold reTest
      rw [List.any_eq_true]
      exact ⟨[w "nice"], by decide, hocc⟩
    exact countMatches_pos (by decide) hre
  refine ⟨hvague, ?_⟩
  have hne2 : (a ++ "make it nice" ++ b).data ≠ [] := by
    rw [String.data_append, String.data_append]
    intro hc
    have hlc := congrArg List.length hc
    simp [String.data_append] at hlc
  have hA : (analyzePromptStrength (a ++ p ++ b) lang).score =
      scoreOf (a ++ p ++ b).data := by
    rw [analyze_score_nonempty lang (by rw [h1]; exact hne), h1]
  have hB : (analyzePromptStrength (a ++ "make it nice" ++ b) lang).score =
      scoreOf (a ++ "make it nice" ++ b).data := by
    rw [analyze_score_nonempty lang (by rw [h2]; exact hne2), h2]
  rw [hA, hB]
  have hP1 : vaguePenalty (a ++ p ++ b).data = 0 := by
    unfold vaguePenalty
    rw [hv]
    decide
  have hP2 : 8 ≤ vaguePenalty (a ++ "make it nice" ++ b).data := by
    unfold vaguePenalty
    rw [clampN_zero_eq]
    omega
  have hL1 := lenScore_bounds (a ++ p ++ b).data.length
  have hr1 : rawScore (a ++ p ++ b).data =
      (lenScore (a ++ p ++ b).data.length : Int) +
        structureScore (a ++ p ++ b).data + keywordScore (a ++ p ++ b).data +
        constraintsScore (a ++ p ++ b).data - vaguePenalty (a ++ p ++ b).data := rfl
  have hr2 : rawScore (a ++ "make it nice" ++ b).data =
      (lenScore (a ++ "make it nice" ++ b).data.length : Int) +
        structureScore (a ++ "make it nice" ++ b).data +
        keywordScore (a ++ "make it nice" ++ b).data +
        constraintsScore (a ++ "make it nice" ++ b).data -
        vaguePenalty (a ++ "make it nice" ++ b).data := rfl
  unfold scoreOf
  rcases clampI_cases (rawScore (a ++ p ++ b).data) with
    ⟨g1, g2⟩ | ⟨g1, g2, g3⟩ | ⟨g1, g2⟩ <;>
    rcases clampI_cases (rawScore (a ++ "make it nice" ++ b).data) with
      ⟨k1, k2⟩ | ⟨k1, k2, k3⟩ | ⟨k1, k2⟩ <;>
    omega

/-- C9 amended-claim witness at a = "massing, ", p = "axon tower", b = "". -/
theorem C9_witness :
    1 ≤ vagueHits (("massing, " : String) ++ "make it nice" ++ "").data ∧
    (analyzePromptStrength (("massing, " : String) ++ "make it nice" ++ "") Lang.en).score <
      (analyzePromptStrength (("massing, " : String) ++ "axon tower" ++ "") Lang.en).score :=
  C9_amended_vague_replacement "massing, " "axon tower" "" Lang.en
    (by decide) (by decide) (by decide) (by decide) (by decide) (by decide)
    (by decide) (by decide) (by decide)

/-! ## Compiler: block lemmas -/

theorem ne_empty_iff_data {s : String} : s ≠ "" ↔ s.data ≠ [] := by
  constructor
  · intro h hc
    exact h (by cases s; simp_all)
  · intro h hc
    rw [hc] at h
    exact h rfl

theorem occursB_self (wd : List Char) : occursB wd wd = true := by
  cases wd with
  | nil => rfl
  | cons c rest =>
    apply occursB_of_isPrefixOf
    rw [List.isPrefixOf_iff_prefix]

theorem joinBlocks_ne_of_head {b : String} (rest : List String) (h : b ≠ "") :
    joinBlocks (b :: rest) ≠ "" := by
  cases rest with
  | nil => exact h
  | cons x t =>
    rw [joinBlocks_cons (by simp)]
    rw [ne_empty_iff_data]
    intro hc
    rw [String.data_append, String.data_append] at hc
    rcases List.append_eq_nil.mp hc with ⟨hc1, _⟩
    rcases List.append_eq_nil.mp hc1 with ⟨hb, _⟩
    exact (ne_empty_iff_data.mp h) hb

theorem occursB_joinBlocks_of_mem {wd : List Char} {b : String} {bs : List String}
    (hmem : b ∈ bs) (h : occursB wd b.data = true) :
    occursB wd (joinBlocks bs).data = true := by
  induction bs with
  | nil => simp at hmem
  | cons x rest ih =>
    cases rest with
    | nil =>
      rcases List.mem_cons.mp hmem with rfl | hc
      · exact h
      · simp at hc
    | cons y t =>
      rw [joinBlocks_cons (by simp)]
      rw [String.data_append, String.data_append, List.append_assoc]
      rcases List.mem_cons.mp hmem with rfl | hc
      · exact occursB_append_left _ h
      · exact occursB_append_right _ (occursB_append_right _ (ih hc))

theorem joinBlocks_concat (bs : List String) (b : String) (h : bs ≠ []) :
    joinBlocks (bs ++ [b]) = joinBlocks bs ++ "\n\n" ++ b := by
  induction bs with
  | nil => exact absurd rfl h
  | cons x rest ih =>
    cases rest with
    | nil => rfl
    | cons y t =>
      rw [List.cons_append, joinBlocks_cons (by simp), joinBlocks_cons (by simp),
        ih (by simp)]
      simp [String.ext_iff, String.data_append]

theorem jsTrim_eq_self {s : String} {c d : Char} (h1 : s.data.head? = some c)
    (hc : isWs c = false) (h2 : s.data.getLast? = some d) (hd : isWs d = false) :
    jsTrim s = s := by
  unfold jsTrim
  rw [trimL_of_ends h1 hc h2 hd]

theorem systemRole_ne : systemRole ≠ "" := by decide

theorem qualityBlock_ne (q : String) : qualityBlock q ≠ "" := by
  unfold qualityBlock
  split <;> decide

theorem compositionConstraints_ne (q : String) : compositionConstraints q ≠ "" := by
  unfold compositionConstraints
  split <;> decide

theorem diagramGrammar_ne : diagramGrammar ≠ "" := by decide

theorem outputReminder_ne : outputReminder ≠ "" := by decide

theorem presetBlock_ne (pr : Option String) : presetBlock pr ≠ "" := by
  unfold presetBlock
  dsimp only
  generalize (pr.getD "" : String) = s
  repeat' split
  all_goals decide

theorem emphasisBlock_ne (e : String) : emphasisBlock e ≠ "" := by
  unfold emphasisBlock
  repeat' split
  all_goals decide

theorem renderingConstraints_ne (st q : String) :
    renderingConstraints st q ≠ "" := by
  unfold renderingConstraints
  rw [List.filter_cons_of_pos (by decide)]
  exact joinBlocks_ne_of_head _ (by decide)

theorem userRequestBlock_eq (up : String) :
    userRequestBlock up = "Design description from user:\n" ++
      (if jsTrim up = "" then "(no additional input)" else jsTrim up) := by
  unfold userRequestBlock
  by_cases h : jsTrim up = ""
  · rw [if_pos h]
    decide
  · rw [if_neg h]
    have hne : (jsTrim up).data ≠ [] := ne_empty_iff_data.mp h
    have hdata : ("Design description from user:\n" ++ jsTrim up).data =
        ("Design description from user:\n" : String).data ++ (jsTrim up).data :=
      String.data_append _ _
    obtain ⟨d, hdl, hdw⟩ : ∃ d, (jsTrim up).data.getLast? = some d ∧ isWs d = false := by
      have : (jsTrim up).data = trimL up.data := rfl
      rw [this] at hne ⊢
      exact trimL_getLast_not_ws hne
    apply jsTrim_eq_self (c := 'D') (d := d)
    · rw [hdata]
      rw [List.head?_append]
      rfl
    · decide
    · rw [hdata, List.getLast?_append, hdl]
      rfl
    · exact hdw

theorem userRequestBlock_ne (up : String) : userRequestBlock up ≠ "" := by
  rw [userRequestBlock_eq]
  rw [ne_empty_iff_data]
  intro hc
  rw [String.data_append] at hc
  rcases List.append_eq_nil.mp hc with ⟨hc1, _⟩
  exact absurd hc1 (by decide)

theorem intentBlock_empty_iff (i : Option String) :
    intentBlock i = "" ↔ i = none ∨ i = some "" := by
  cases i with
  | none => simp [intentBlock]
  | some s =>
    have hdef : intentBlock (some s) =
        if s = "" then "" else jsTrim ("Specific intent focus:\n- " ++ s) := rfl
    rw [hdef]
    by_cases h : s = ""
    · simp [h]
    · rw [if_neg h]
      constructor
      · intro hc
        exfalso
        have : ("Specific intent focus:\n- " ++ s).data.head? = some 'S' := by
          rw [String.data_append, List.head?_append]
          rfl
        exact jsTrim_ne_empty this (by decide) hc
      · intro hc
        rcases hc with hc | hc
        · simp at hc
        · simp at hc
          exact absurd hc h

theorem buildDiagramPrompt_eq (p : CompilerParams) :
    buildDiagramPrompt p = joinBlocks (compiledBlocks p) := by
  have hfilter :
      ([systemRole,
        qualityBlock (p.quality.getD "portfolio"),
        renderingConstraints (p.style.getD "minimal") (p.quality.getD "portfolio"),
        compositionConstraints (p.quality.getD "portfolio"),
        diagramGrammar,
        presetBlock p.preset,
        emphasisBlock (p.emphasis.getD "all"),
        intentBlock p.intent,
        userRequestBlock p.userPrompt,
        outputReminder]).filter (fun b => b ≠ "") = compiledBlocks p := by
    unfold compiledBlocks
    by_cases hi : intentBlock p.intent = ""
    · simp [List.filter_cons, systemRole_ne, qualityBlock_ne, renderingConstraints_ne,
        compositionConstraints_ne, diagramGrammar_ne, presetBlock_ne, emphasisBlock_ne,
        hi, userRequestBlock_ne, outputReminder_ne]
    · simp [List.filter_cons, systemRole_ne, qualityBlock_ne, renderingConstraints_ne,
        compositionConstraints_ne, diagramGrammar_ne, presetBlock_ne, emphasisBlock_ne,
        hi, userRequestBlock_ne, outputReminder_ne]
  have hblocks : buildDiagramPrompt p = jsTrim (joinBlocks (compiledBlocks p)) := by
    unfold buildDiagramPrompt
    dsimp only
    rw [hfilter]
  rw [hblocks]
  have hcons : compiledBlocks p = systemRole ::
      (qualityBlock (p.quality.getD "portfolio") ::
       renderingConstraints (p.style.getD "minimal") (p.quality.getD "portfolio") ::
       compositionConstraints (p.quality.getD "portfolio") ::
       diagramGrammar :: presetBlock p.preset ::
       emphasisBlock (p.emphasis.getD "all") ::
       ((if intentBlock p.intent = "" then [] else [intentBlock p.intent]) ++
         [userRequestBlock p.userPrompt, outputReminder])) := by
    unfold compiledBlocks
    simp
  have hlast : compiledBlocks p =
      ([systemRole,
        qualityBlock (p.quality.getD "portfolio"),
        renderingConstraints (p.style.getD "minimal") (p.quality.getD "portfolio"),
        compositionConstraints (p.quality.getD "portfolio"),
        diagramGrammar, presetBlock p.preset,
        emphasisBlock (p.emphasis.getD "all")] ++
       (if intentBlock p.intent = "" then [] else [intentBlock p.intent]) ++
       [userRequestBlock p.userPrompt]) ++ [outputReminder] := by
    unfold compiledBlocks
    simp
  apply jsTrim_eq_self (c := 'Y') (d := 'l')
  · rw [hcons, joinBlocks_cons (by simp), String.data_append, String.data_append,
      List.append_assoc, List.head?_append]
    rfl
  · decide
  · rw [hlast, joinBlocks_concat _ _ (by simp), String.data_append,
      List.getLast?_append]
    rfl
  · decide

theorem compiledBlocks_eq_cons (p : CompilerParams) :
    compiledBlocks p = systemRole ::
      (qualityBlock (p.quality.getD "portfolio") ::
       renderingConstraints (p.style.getD "minimal") (p.quality.getD "portfolio") ::
       compositionConstraints (p.quality.getD "portfolio") ::
       diagramGrammar :: presetBlock p.preset ::
       emphasisBlock (p.emphasis.getD "all") ::
       ((if intentBlock p.intent = "" then [] else [intentBlock p.intent]) ++
         [userRequestBlock p.userPrompt, outputReminder])) := by
  unfold compiledBlocks
  simp

theorem buildDiagramPrompt_ne_empty (p : CompilerParams) :
    buildDiagramPrompt p ≠ "" := by
  rw [buildDiagramPrompt_eq, compiledBlocks_eq_cons]
  exact joinBlocks_ne_of_head _ systemRole_ne

/-- C6: for every config, `buildDiagramPrompt` returns a non-empty string
containing the trimmed `userPrompt` verbatim when it is non-empty, and the
fixed placeholder phrase otherwise. -/
theorem C6_output_contains_user_text (p : CompilerParams) :
    buildDiagramPrompt p ≠ "" ∧
    occursS (if jsTrim p.userPrompt = "" then "(no additional input)"
             else jsTrim p.userPrompt) (buildDiagramPrompt p) = true := by
  refine ⟨buildDiagramPrompt_ne_empty p, ?_⟩
  rw [buildDiagramPrompt_eq]
  have hmem : userRequestBlock p.userPrompt ∈ compiledBlocks p := by
    unfold compiledBlocks
    simp
  unfold occursS
  apply occursB_joinBlocks_of_mem hmem
  rw [userRequestBlock_eq, String.data_append]
  exact occursB_append_right _ (occursB_self _)

/-- C10: the intent-focus block is the only block of the compiler's ordered
ten-block list that can resolve to the empty string (empty exactly when the
intent field is absent or empty); the other nine blocks are non-empty for
every input, so the compiled output is always the blank-line join of the
nine mandatory blocks in fixed order, with the intent block inserted in its
slot when present. -/
theorem C10_only_intent_block_optional (p : CompilerParams) :
    systemRole ≠ "" ∧
    qualityBlock (p.quality.getD "portfolio") ≠ "" ∧
    renderingConstraints (p.style.getD "minimal") (p.quality.getD "portfolio") ≠ "" ∧
    compositionConstraints (p.quality.getD "portfolio") ≠ "" ∧
    diagramGrammar ≠ "" ∧
    presetBlock p.preset ≠ "" ∧
    emphasisBlock (p.emphasis.getD "all") ≠ "" ∧
    userRequestBlock p.userPrompt ≠ "" ∧
    outputReminder ≠ "" ∧
    (intentBlock p.intent = "" ↔ p.intent = none ∨ p.intent = some "") ∧
    buildDiagramPrompt p = joinBlocks (compiledBlocks p) :=
  ⟨systemRole_ne, qualityBlock_ne _, renderingConstraints_ne _ _,
   compositionConstraints_ne _, diagramGrammar_ne, presetBlock_ne _,
   emphasisBlock_ne _, userRequestBlock_ne _, outputReminder_ne,
   intentBlock_empty_iff _, buildDiagramPrompt_eq p⟩

/-! ## C5: defaults and fallbacks -/

theorem build_style_omitted (p : CompilerParams) (h : p.style = none) :
    buildDiagramPrompt p = buildDiagramPrompt {p with style := some "minimal"} := by
  simp [buildDiagramPrompt, h]

theorem build_emphasis_omitted (p : CompilerParams) (h : p.emphasis = none) :
    buildDiagramPrompt p = buildDiagramPrompt {p with emphasis := some "all"} := by
  simp [buildDiagramPrompt, h]

theorem build_quality_omitted (p : CompilerParams) (h : p.quality = none) :
    buildDiagramPrompt p = buildDiagramPrompt {p with quality := some "portfolio"} := by
  simp [buildDiagramPrompt, h]

theorem build_preset_omitted (p : CompilerParams) (h : p.preset = none) :
    buildDiagramPrompt p = buildDiagramPrompt {p with preset := some ""} := by
  have hpb : presetBlock p.preset = presetBlock (some "") := by rw [h]; rfl
  simp [buildDiagramPrompt, hpb]

theorem renderingConstraints_style_unknown (st q : String) (h : st ≠ "minimal") :
    renderingConstraints st q = renderingConstraints "bold" q := by
  unfold renderingConstraints
  rw [if_neg h, if_neg (show ¬("bold" = "minimal") by decide)]

theorem build_style_unknown (p : CompilerParams) (st : String) (h : st ≠ "minimal") :
    buildDiagramPrompt {p with style := some st} =
      buildDiagramPrompt {p with style := some "bold"} := by
  simp [buildDiagramPrompt, renderingConstraints_style_unknown st _ h,
    renderingConstraints_style_unknown "bold" _ (by decide)]

theorem emphasisBlock_unknown (e : String) (h1 : e ≠ "massing")
    (h2 : e ≠ "circulation") (h3 : e ≠ "program") (h4 : e ≠ "experience") :
    emphasisBlock e = emphasisBlock "all" := by
  unfold emphasisBlock
  rw [if_neg h1, if_neg h2, if_neg h3, if_neg h4]
  decide

theorem build_emphasis_unknown (p : CompilerParams) (e : String) (h1 : e ≠ "massing")
    (h2 : e ≠ "circulation") (h3 : e ≠ "program") (h4 : e ≠ "experience") :
    buildDiagramPrompt {p with emphasis := some e} =
      buildDiagramPrompt {p with emphasis := some "all"} := by
  simp [buildDiagramPrompt, emphasisBlock_unknown e h1 h2 h3 h4,
    emphasisBlock_unknown "all" (by decide) (by decide) (by decide) (by decide)]

theorem presetBlock_unknown (s : String) (h1 : s ≠ "massing")
    (h2 : s ≠ "circulation") (h3 : s ≠ "zoning") (h4 : s ≠ "program")
    (h5 : s ≠ "immersive") (h6 : s ≠ "process") :
    presetBlock (some s) = presetBlock (some "") := by
  unfold presetBlock
  dsimp only
  simp only [Option.getD_some]
  rw [if_neg h1, if_neg h2, if_neg h3, if_neg h4, if_neg h5, if_neg h6]
  decide

theorem build_preset_unknown (p : CompilerParams) (s : String) (h1 : s ≠ "massing")
    (h2 : s ≠ "circulation") (h3 : s ≠ "zoning") (h4 : s ≠ "program")
    (h5 : s ≠ "immersive") (h6 : s ≠ "process") :
    buildDiagramPrompt {p with preset := some s} =
      buildDiagramPrompt {p with preset := some ""} := by
  simp [buildDiagramPrompt, presetBlock_unknown s h1 h2 h3 h4 h5 h6]

theorem qualityBlock_unknown (q : String) (h : q ≠ "draft") :
    qualityBlock q = qualityBlock "portfolio" := by
  unfold qualityBlock
  rw [if_neg h, if_neg (by decide)]

theorem compositionConstraints_unknown (q : String) (h : q ≠ "draft") :
    compositionConstraints q = compositionConstraints "portfolio" := by
  unfold compositionConstraints
  rw [if_neg h, if_neg (by decide)]

theorem renderingConstraints_quality_unknown (st q : String) (h : q ≠ "portfolio") :
    renderingConstraints st q = renderingConstraints st "draft" := by
  unfold renderingConstraints
  rw [if_neg h, if_neg (show ¬("draft" = "portfolio") by decide)]

/-- C5 counterexample: the unknown style value "neon" does not resolve to the
documented default "minimal": the output picks the bold color block instead
of the minimal linework block. -/
theorem C5_counterexample :
    buildDiagramPrompt { userPrompt := "x", style := some "neon" } ≠
      buildDiagramPrompt { userPrompt := "x", style := some "minimal" } ∧
    occursS "Color style:"
      (buildDiagramPrompt { userPrompt := "x", style := some "neon" }) = true ∧
    occursS "Linework style:"
      (buildDiagramPrompt { userPrompt := "x", style := some "neon" }) = false := by
  decide

/-- C5 (amended): `buildDiagramPrompt` is total and returns a non-empty
string; omitted style/emphasis/quality fields default to
minimal/all/portfolio and an omitted preset behaves as the empty preset;
unknown preset or emphasis values fall back to the generic/balanced blocks;
but an unknown style value selects the bold color block (not minimal), and
an unknown quality value behaves as portfolio for the quality and
composition blocks while omitting the portfolio polish sub-block. -/
theorem C5_amended_defaults_and_fallbacks :
    (∀ p : CompilerParams, buildDiagramPrompt p ≠ "") ∧
    (∀ p : CompilerParams, p.style = none →
      buildDiagramPrompt p = buildDiagramPrompt {p with style := some "minimal"}) ∧
    (∀ p : CompilerParams, p.emphasis = none →
      buildDiagramPrompt p = buildDiagramPrompt {p with emphasis := some "all"}) ∧
    (∀ p : CompilerParams, p.quality = none →
      buildDiagramPrompt p = buildDiagramPrompt {p with quality := some "portfolio"}) ∧
    (∀ p : CompilerParams, p.preset = none →
      buildDiagramPrompt p = buildDiagramPrompt {p with preset := some ""}) ∧
    (∀ (p : CompilerParams) (st : String), st ≠ "minimal" →
      buildDiagramPrompt {p with style := some st} =
        buildDiagramPrompt {p with style := some "bold"}) ∧
    (∀ (p : CompilerParams) (e : String), e ≠ "massing" → e ≠ "circulation" →
      e ≠ "program" → e ≠ "experience" →
      buildDiagramPrompt {p with emphasis := some e} =
        buildDiagramPrompt {p with emphasis := some "all"}) ∧
    (∀ (p : CompilerParams) (s : String), s ≠ "massing" → s ≠ "circulation" →
      s ≠ "zoning" → s ≠ "program" → s ≠ "immersive" → s ≠ "process" →
      buildDiagramPrompt {p with preset := some s} =
        buildDiagramPrompt {p with preset := some ""}) ∧
    (∀ q : String, q ≠ "draft" → q ≠ "portfolio" →
      qualityBlock q = qualityBlock "portfolio" ∧
      compositionConstraints q = compositionConstraints "portfolio" ∧
      ∀ st : String, renderingConstraints st q = renderingConstraints st "draft") :=
  ⟨buildDiagramPrompt_ne_empty,
   build_style_omitted, build_emphasis_omitted, build_quality_omitted,
   build_preset_omitted, build_style_unknown, build_emphasis_unknown,
   build_preset_unknown,
   fun q hd _hp =>
     ⟨qualityBlock_unknown q hd, compositionConstraints_unknown q hd,
      fun st => renderingConstraints_quality_unknown st q _hp⟩⟩

/-- C5 witness: the unknown style "neon" falls back to the bold branch, and
an omitted style defaults to minimal, at a concrete config. -/
theorem C5_witness :
    buildDiagramPrompt { userPrompt := "x", style := some "neon" } =
      buildDiagramPrompt { userPrompt := "x", style := some "bold" } ∧
    buildDiagramPrompt { userPrompt := "x" } =
      buildDiagramPrompt { userPrompt := "x", style := some "minimal" } :=
  ⟨C5_amended_defaults_and_fallbacks.2.2.2.2.2.1 { userPrompt := "x" } "neon"
      (by decide),
   C5_amended_defaults_and_fallbacks.2.1 { userPrompt := "x" } rfl⟩

/-! ## C7: emphasis override exclusivity -/

/-- C7 counterexample: the shared diagram-grammar arrow instruction appears
in the emphasis=all output and also in the emphasis=massing output (the two
configs differ only in emphasis), so the massing output does contain
arrow-related instruction text that appears in the all output. -/
theorem C7_counterexample :
    occursS "Use arrows to represent movement only when relevant"
      (buildDiagramPrompt { userPrompt := "x", emphasis := some "all" }) = true ∧
    occursS "Use arrows to represent movement only when relevant"
      (buildDiagramPrompt { userPrompt := "x", emphasis := some "massing" }) = true := by
  decide

theorem noBal_quality (q : String) :
    occursS "(and arrows only if relevant)" (qualityBlock q) = false := by
  unfold qualityBlock
  split <;> decide

theorem noBal_composition (q : String) :
    occursS "(and arrows only if relevant)" (compositionConstraints q) = false := by
  unfold compositionConstraints
  split <;> decide

theorem noBal_rendering (st q : String) :
    occursS "(and arrows only if relevant)" (renderingConstraints st q) = false := by
  unfold renderingConstraints
  by_cases hst : st = "minimal"
  · rw [if_pos hst]
    by_cases hq : q = "portfolio"
    · rw [if_pos hq]; decide
    · rw [if_neg hq]; decide
  · rw [if_neg hst]
    by_cases hq : q = "portfolio"
    · rw [if_pos hq]; decide
    · rw [if_neg hq]; decide

theorem noBal_preset (pr : Option String) :
    occursS "(and arrows only if relevant)" (presetBlock pr) = false := by
  unfold presetBlock
  dsimp only
  generalize (pr.getD "" : String) = s
  repeat' split
  all_goals decide

/-- C7 (amended): the emphasis override blocks are mutually exclusive in
effect — the balanced-emphasis arrow instruction "(and arrows only if
relevant)" appears in the output exactly for emphasis=all and is absent from
the emphasis=massing output of the otherwise identical config, provided the
free-text user-request and intent blocks do not themselves contain that
phrase.  (Arrow text from the shared diagram-grammar block appears in both
outputs; see the counterexample.) -/
theorem C7_amended_emphasis_exclusive (p : CompilerParams)
    (h1 : occursS "(and arrows only if relevant)" (userRequestBlock p.userPrompt) = false)
    (h2 : occursS "(and arrows only if relevant)" (intentBlock p.intent) = false) :
    occursS "(and arrows only if relevant)"
      (buildDiagramPrompt {p with emphasis := some "all"}) = true ∧
    occursS "(and arrows only if relevant)"
      (buildDiagramPrompt {p with emphasis := some "massing"}) = false := by
  constructor
  · rw [buildDiagramPrompt_eq]
    unfold occursS
    apply occursB_joinBlocks_of_mem (b := emphasisBlock "all")
    · rw [compiledBlocks_eq_cons]
      simp
    · decide
  · rw [buildDiagramPrompt_eq]
    rw [Bool.eq_false_iff]
    intro hocc
    rw [@occursS_joinBlocks_iff "(and arrows only if relevant)"
      (by decide) (by decide) _
      (by rw [compiledBlocks_eq_cons]; simp)] at hocc
    obtain ⟨b, hmem, hb⟩ := hocc
    rw [compiledBlocks_eq_cons] at hmem
    rcases List.mem_cons.mp hmem with rfl | hmem
    · exact absurd hb (by decide)
    rcases List.mem_cons.mp hmem with rfl | hmem
    · rw [noBal_quality] at hb
      exact absurd hb (by decide)
    rcases List.mem_cons.mp hmem with rfl | hmem
    · rw [noBal_rendering] at hb
      exact absurd hb (by decide)
    rcases List.mem_cons.mp hmem with rfl | hmem
    · rw [noBal_composition] at hb
      exact absurd hb (by decide)
    rcases List.mem_cons.mp hmem with rfl | hmem
    · exact absurd hb (by decide)
    rcases List.mem_cons.mp hmem with rfl | hmem
    · rw [noBal_preset] at hb
      exact absurd hb (by decide)
    rcases List.mem_cons.mp hmem with rfl | hmem
    · have hemph : (({p with emphasis := some "massing"} : CompilerParams).emphasis.getD "all") =
          "massing" := rfl
      rw [hemph] at hb
      exact absurd hb (by decide)
    rcases List.mem_append.mp hmem with hmem | hmem
    · by_cases hi : intentBlock p.intent = ""
      · rw [if_pos hi] at hmem
        simp at hmem
      · rw [if_neg hi] at hmem
        rcases List.mem_cons.mp hmem with rfl | hmem
        · rw [h2] at hb
          exact absurd hb (by decide)
        · simp at hmem
    · rcases List.mem_cons.mp hmem with rfl | hmem
      · rw [h1] at hb
        exact absurd hb (by decide)
      rcases List.mem_cons.mp hmem with rfl | hmem
      · exact absurd hb (by decide)
      · simp at hmem

/-- C7 amended-claim witness at the config with user text "x" and no intent. -/
theorem C7_witness :
    occursS "(and arrows only if relevant)"
      (buildDiagramPrompt {({ userPrompt := "x" } : CompilerParams) with
        emphasis := some "all"}) = true ∧
    occursS "(and arrows only if relevant)"
      (buildDiagramPrompt {({ userPrompt := "x" } : CompilerParams) with
        emphasis := some "massing"}) = false :=
  C7_amended_emphasis_exclusive { userPrompt := "x" } (by decide) (by decide)

end DiagramGen
